import Mathlib

/-!
Shallow embedding of the ALI concurrency/messaging runtime
(src/ali/core/event_bus.py, src/ali/core/scheduler.py,
src/ali/core/priority_queue.py) and proofs about it.

Python dicts are modelled as insertion-ordered association lists,
`deque(maxlen=n)` as a list with bounded append, wall-clock timestamps as
naturals, and Python floats (power budget arithmetic) as rationals.  The
asyncio worker tasks of the event bus are modelled as explicit worker
steps on the bus state: `publish` performs exactly the work done inside
the `publish` coroutine (history append, counter update, per-handler
enqueue with backpressure drop), and `workerStep` performs the work of
one `_worker_loop` iteration (`_invoke_handler`).  A ghost field
`invocations` records every actual handler call so that delivery can be
observed.
-/

namespace ALI

/-- Insertion-ordered dict lookup (`d.get(k)`). -/
def alookup {α : Type} : List (String × α) → String → Option α
  | [], _ => none
  | (k, v) :: rest, key => if k = key then some v else alookup rest key

/-- Insertion-ordered dict assignment (`d[k] = v`): overwrite in place,
append at the end when the key is new. -/
def aset {α : Type} : List (String × α) → String → α → List (String × α)
  | [], key, v => [(key, v)]
  | (k, w) :: rest, key, v =>
    if k = key then (k, v) :: rest else (k, w) :: aset rest key v

/-- `d[k] = d.get(k, 0) + 1`. -/
def abump (l : List (String × Nat)) (key : String) : List (String × Nat) :=
  aset l key ((alookup l key).getD 0 + 1)

/-- Event (src/ali/core/event_bus.py, `Event`): payload entries are kept
abstract as string pairs; `created_at` is a timestamp. -/
structure Event where
  event_type : String
  payload : List (String × String)
  source : String
  event_id : String
  created_at : Nat
deriving DecidableEq

/-- Outcome of awaiting a handler under `handler_timeout`: the coroutine
finishes normally, raises, or outlives the deadline. -/
inductive HResult where
  | ok
  | error
  | timeout
deriving DecidableEq

/-- A subscriber callback: its metrics key (`_handler_key`) plus its
behaviour on each event. -/
structure Handler where
  key : String
  run : Event → HResult

/-- EventBus state (src/ali/core/event_bus.py, `EventBus.__init__`).
Time-based metrics (latency, lag) are not modelled.  `queue_maxsize = 0`
means unbounded, as for `asyncio.Queue`.  `invocations` is a ghost log of
(handler key, event id) for every handler actually called. -/
structure BusState where
  subscribers : List (String × List Handler)
  history : List Event
  max_history : Nat
  max_in_flight : Nat
  queue : List (Handler × Event)
  queue_maxsize : Nat
  published_count : Nat
  dropped_count : Nat
  error_count : Nat
  timeout_count : Nat
  handler_timeouts : List (String × Nat)
  handler_errors : List (String × Nat)
  invocations : List (String × String)

namespace BusState

/-- Fresh bus with the constructor's defaults. -/
def init (max_history : Nat := 500) (max_in_flight : Nat := 50)
    (queue_maxsize : Nat := 500) : BusState :=
  { subscribers := [], history := [], max_history := max_history,
    max_in_flight := max_in_flight, queue := [], queue_maxsize := queue_maxsize,
    published_count := 0, dropped_count := 0, error_count := 0,
    timeout_count := 0, handler_timeouts := [], handler_errors := [],
    invocations := [] }

/-- `EventBus.subscribe`: `self._subscribers.setdefault(event_type, []).append(handler)`. -/
def subscribe (b : BusState) (event_type : String) (h : Handler) : BusState :=
  let cur := (alookup b.subscribers event_type).getD []
  { b with subscribers := aset b.subscribers event_type (cur ++ [h]) }

/-- The handler list computed at the top of `publish`:
`list(get(event.event_type, [])) + get("*", [])`. -/
def matched (b : BusState) (e : Event) : List Handler :=
  ((alookup b.subscribers e.event_type).getD []) ++ ((alookup b.subscribers "*").getD [])

/-- `deque(maxlen=cap).append(e)`: append, evicting from the left when
over capacity. -/
def histAppend (hist : List Event) (e : Event) (cap : Nat) : List Event :=
  let h := hist ++ [e]
  h.drop (h.length - cap)

/-- `_enqueue_handler`: `wait_for(queue.put(...), backpressure_timeout)`.
With no worker draining concurrently, a put on a full queue times out and
the attempt is dropped and counted. -/
def enqueueHandler (b : BusState) (h : Handler) (e : Event) : BusState :=
  if b.queue_maxsize = 0 ∨ b.queue.length < b.queue_maxsize then
    { b with queue := b.queue ++ [(h, e)] }
  else
    { b with dropped_count := b.dropped_count + 1 }

/-- `EventBus.publish`: record the event in history, count it, and when
the matched handler list is non-empty enqueue one work item per handler
(dropping on backpressure).  Handler invocation itself happens in worker
steps, not here. -/
def publish (b : BusState) (e : Event) : BusState :=
  let handlers := b.matched e
  let b := { b with history := histAppend b.history e b.max_history,
                    published_count := b.published_count + 1 }
  if handlers.isEmpty then b
  else handlers.foldl (fun acc h => acc.enqueueHandler h e) b

/-- One `_worker_loop` iteration followed by `_invoke_handler`: pop the
oldest queue entry; acquiring an in-flight slot fails (and the attempt is
dropped) only when the semaphore has capacity zero, since in the
sequential model every earlier invocation has already released its slot;
then await the handler, counting an error or a timeout. -/
def workerStep (b : BusState) : BusState :=
  match b.queue with
  | [] => b
  | (h, e) :: rest =>
    let b := { b with queue := rest }
    if b.max_in_flight = 0 then
      { b with dropped_count := b.dropped_count + 1 }
    else
      match h.run e with
      | .ok => { b with invocations := b.invocations ++ [(h.key, e.event_id)] }
      | .error =>
        { b with error_count := b.error_count + 1,
                 handler_errors := abump b.handler_errors h.key,
                 invocations := b.invocations ++ [(h.key, e.event_id)] }
      | .timeout =>
        { b with timeout_count := b.timeout_count + 1,
                 handler_timeouts := abump b.handler_timeouts h.key,
                 invocations := b.invocations ++ [(h.key, e.event_id)] }

/-- Run worker steps until the queue is empty (fuel-indexed). -/
def runWorkersFuel : Nat → BusState → BusState
  | 0, b => b
  | n + 1, b => if b.queue.isEmpty then b else runWorkersFuel n (workerStep b)

/-- Drain the whole worker queue. -/
def runWorkers (b : BusState) : BusState :=
  runWorkersFuel b.queue.length b

/-- `EventBus.recent_events`. -/
def recent_events (b : BusState) (limit : Int) : List Event :=
  if limit ≤ 0 then []
  else b.history.drop (b.history.length - limit.toNat)

end BusState

/-- The filter used by `replay`: type match (or wildcard) and, when
`since` is given, `created_at ≥ since`. -/
def replayMatch (etype : String) (since : Option Nat) (e : Event) : Bool :=
  (etype = "*" || e.event_type = etype) &&
    (match since with
     | some s => decide (s ≤ e.created_at)
     | none => true)

/-- The loop body of `EventBus.replay`, returning the list of events the
handler is invoked on, in order.  `replayed` is the running count; the
loop breaks after a handled event when `limit and replayed >= limit`
holds — note that a `limit` of `0` is falsy in Python. -/
def replayGo (etype : String) (since : Option Nat) (limit : Option Nat) :
    List Event → Nat → List Event
  | [], _ => []
  | e :: rest, replayed =>
    if replayMatch etype since e then
      let replayed := replayed + 1
      if (match limit with
          | some n => decide (n ≠ 0 ∧ n ≤ replayed)
          | none => false) then [e]
      else e :: replayGo etype since limit rest replayed
    else replayGo etype since limit rest replayed

/-- `EventBus.replay`: the events handled, oldest to newest. -/
def BusState.replayHandled (b : BusState) (etype : String)
    (since : Option Nat) (limit : Option Nat) : List Event :=
  replayGo etype since limit b.history 0

/-- The number of matches `replay` actually handles: a positive `limit`
caps the count, while `limit = None` and `limit = 0` (falsy in Python)
both mean all matches. -/
def replayBound (limit : Option Nat) (totalMatches : Nat) : Nat :=
  match limit with
  | none => totalMatches
  | some n => if n = 0 then totalMatches else n

/-- PrioritizedQueue state (src/ali/core/priority_queue.py): two FIFO
deques plus the counters the claims mention.  The handler and the tick
loop act on the batches returned by `dequeueBatch`. -/
structure PQState (T : Type) where
  high : List T
  normal : List T
  maxsize : Nat
  max_batch : Nat
  enqueued : Nat
  dropped : Nat

namespace PQState

/-- Constructor defaults: `maxsize = max(1, maxsize)`,
`max_batch = max(1, max_batch)`. -/
def init (T : Type) (maxsize : Nat := 200) (max_batch : Nat := 8) : PQState T :=
  { high := [], normal := [], maxsize := max 1 maxsize,
    max_batch := max 1 max_batch, enqueued := 0, dropped := 0 }

/-- `len(high) + len(normal)`. -/
def size {T : Type} (q : PQState T) : Nat :=
  q.high.length + q.normal.length

/-- `PrioritizedQueue.enqueue`: when full, evict the oldest normal item
(or, if `normal` is empty, the oldest high item) and count the drop; then
append the new item to its tier.  Returns `True` always, as the source
does. -/
def enqueue {T : Type} (isHigh : T → Bool) (q : PQState T) (item : T) :
    Bool × PQState T :=
  let q :=
    if q.maxsize ≤ q.size then
      let q :=
        if ¬ q.normal.isEmpty then { q with normal := q.normal.tail }
        else if ¬ q.high.isEmpty then { q with high := q.high.tail }
        else q
      { q with dropped := q.dropped + 1 }
    else q
  let q :=
    if isHigh item then { q with high := q.high ++ [item] }
    else { q with normal := q.normal ++ [item] }
  (true, { q with enqueued := q.enqueued + 1 })

/-- `PrioritizedQueue._dequeue_batch`: take up to `max_batch` items from
`high` first, then fill the remainder from `normal`; each batch entry is
tagged with its tier. -/
def dequeueBatch {T : Type} (q : PQState T) : List (T × Bool) × PQState T :=
  let fromHigh := q.high.take q.max_batch
  let rem := q.max_batch - fromHigh.length
  let fromNormal := q.normal.take rem
  (fromHigh.map (fun x => (x, true)) ++ fromNormal.map (fun x => (x, false)),
   { q with high := q.high.drop q.max_batch, normal := q.normal.drop rem })

end PQState

/-- A snapshot dict value: Python values of the health snapshot are
heterogeneous, and `==` between a string and an integer is `False`, which
structural equality on this sum reproduces. -/
inductive PyVal where
  | vs : String → PyVal
  | vi : Int → PyVal
  | vnone
deriving DecidableEq

/-- TaskSpec (src/ali/core/scheduler.py).  The run action itself is
modelled by the outcome events fed to `on_task_done`. -/
structure TaskSpec where
  name : String
  priority : Int
  power_cost : ℚ
  restart : Bool
  max_restarts : Nat
deriving DecidableEq

/-- TaskState (src/ali/core/scheduler.py): `last_heartbeat` is a
monotonic-clock reading, modelled as a natural. -/
structure TaskState where
  status : String
  last_error : Option String
  restarts : Nat
  last_heartbeat : Nat
deriving DecidableEq

/-- `TaskState()` with its defaults. -/
def TaskState.initial : TaskState :=
  { status := "pending", last_error := none, restarts := 0, last_heartbeat := 0 }

/-- How a run of a task's action ends: cancelled, raised (with the
stringified exception), or returned normally. -/
inductive TaskOutcome where
  | cancelled
  | raised : String → TaskOutcome
  | returned
deriving DecidableEq

/-- Scheduler state (src/ali/core/scheduler.py).  `running_specs` models
the specs whose launched task is currently running (the live part of
`self._tasks`); `runs_started` is a ghost log of every run admission, so
that "no further run is started" is observable. -/
structure SchedState where
  task_specs : List TaskSpec
  task_state : List (String × TaskState)
  power_budget : ℚ
  power_used : ℚ
  running_specs : List TaskSpec
  runs_started : List String
deriving DecidableEq

namespace SchedState

/-- Fresh scheduler with a given power budget. -/
def init (power_budget : ℚ := 10) : SchedState :=
  { task_specs := [], task_state := [], power_budget := power_budget,
    power_used := 0, running_specs := [], runs_started := [] }

/-- `self._task_state.setdefault(spec.name, TaskState())`. -/
def stateOf (s : SchedState) (name : String) : TaskState :=
  (alookup s.task_state name).getD TaskState.initial

/-- `Scheduler._ensure_task`: return unchanged if the task is already
running; defer to `pending` when the cost would push `power_used` over
`power_budget`; otherwise mark it running, charge the budget and launch
the run. -/
def ensure_task (s : SchedState) (spec : TaskSpec) : SchedState :=
  let st := s.stateOf spec.name
  let s := { s with task_state := aset s.task_state spec.name st }
  if st.status = "running" then s
  else if s.power_budget < s.power_used + spec.power_cost then
    { s with task_state := aset s.task_state spec.name { st with status := "pending" } }
  else
    { s with
      task_state := aset s.task_state spec.name { st with status := "running" },
      power_used := s.power_used + spec.power_cost,
      running_specs := s.running_specs ++ [spec],
      runs_started := s.runs_started ++ [spec.name] }

/-- Stable insertion into a priority-sorted spec list. -/
def specInsert (spec : TaskSpec) : List TaskSpec → List TaskSpec
  | [] => [spec]
  | x :: rest =>
    if spec.priority < x.priority then spec :: x :: rest
    else x :: specInsert spec rest

/-- `Scheduler.schedule`: record the spec, keep the spec list sorted by
priority (stably), and attempt immediate admission. -/
def schedule (s : SchedState) (spec : TaskSpec) : SchedState :=
  ensure_task { s with task_specs := specInsert spec s.task_specs } spec

/-- Remove the first spec with the given name. -/
def removeRunning (name : String) : List TaskSpec → List TaskSpec
  | [] => []
  | x :: rest => if x.name = name then rest else x :: removeRunning name rest

/-- `Scheduler._on_task_done`: release the power cost (floored at zero);
a cancelled run leaves status `cancelled`; a raised run records the error
and status `failed` and, when `restart` holds and `restarts <
max_restarts`, increments `restarts` and re-admits through
`_ensure_task`; a normal return changes nothing further. -/
def on_task_done (s : SchedState) (spec : TaskSpec) (out : TaskOutcome) :
    SchedState :=
  let st := s.stateOf spec.name
  let s := { s with
    power_used := max (s.power_used - spec.power_cost) 0,
    running_specs := removeRunning spec.name s.running_specs }
  match out with
  | .cancelled =>
    { s with task_state := aset s.task_state spec.name { st with status := "cancelled" } }
  | .raised msg =>
    let st := { st with last_error := some msg, status := "failed" }
    let s := { s with task_state := aset s.task_state spec.name st }
    if spec.restart ∧ st.restarts < spec.max_restarts then
      let st := { st with restarts := st.restarts + 1 }
      ensure_task { s with task_state := aset s.task_state spec.name st } spec
    else s
  | .returned => s

/-- `Scheduler.health_snapshot` for one task: note that `restarts` and
`last_heartbeat` are passed through `str(...)`. -/
def snapEntry (st : TaskState) : List (String × PyVal) :=
  [("status", .vs st.status),
   ("last_error", match st.last_error with | some m => .vs m | none => .vnone),
   ("restarts", .vs (Nat.repr st.restarts)),
   ("last_heartbeat", .vs (Nat.repr st.last_heartbeat))]

/-- `Scheduler.health_snapshot`. -/
def health_snapshot (s : SchedState) : List (String × List (String × PyVal)) :=
  s.task_state.map (fun p => (p.1, snapEntry p.2))

/-- `Scheduler.shutdown`: cancel every running task — each cancellation
runs that task's `_on_task_done` callback with a cancelled outcome before
`gather` resumes — then clear the task list and the state table and reset
`power_used` to zero. -/
def shutdown (s : SchedState) : SchedState :=
  let s := s.running_specs.foldl (fun acc spec => on_task_done acc spec .cancelled) s
  { s with running_specs := [], task_state := [], power_used := 0 }

/-- Rounds of an always-failing task: while the task is running, its next
run ends by raising `msg` and `_on_task_done` fires; stop when no run is
in flight (fuel-indexed). -/
def failRounds (spec : TaskSpec) (msg : String) : Nat → SchedState → SchedState
  | 0, s => s
  | n + 1, s =>
    if (s.stateOf spec.name).status = "running" then
      failRounds spec msg n (on_task_done s spec (.raised msg))
    else s

/-- Let an always-failing task settle: enough rounds to exhaust the
restart budget. -/
def settleFailing (s : SchedState) (spec : TaskSpec) (msg : String) : SchedState :=
  failRounds spec msg (spec.max_restarts + 2) s

end SchedState

/-- One step of scheduler activity: a `schedule` call or the completion
callback of a running task. -/
inductive SchedOp where
  | sched : TaskSpec → SchedOp
  | taskDone : TaskSpec → TaskOutcome → SchedOp

/-- The power cost named by a scheduler step. -/
def SchedOp.cost : SchedOp → ℚ
  | .sched spec => spec.power_cost
  | .taskDone spec _ => spec.power_cost

/-- Apply a scheduler step. -/
def SchedState.applyOp (s : SchedState) : SchedOp → SchedState
  | .sched spec => s.schedule spec
  | .taskDone spec out => s.on_task_done spec out

/-- Run a sequence of scheduler steps. -/
def SchedState.runOps (s : SchedState) (ops : List SchedOp) : SchedState :=
  ops.foldl SchedState.applyOp s

section Lemmas

open BusState SchedState

lemma size_enqueue_le {T : Type} (isHigh : T → Bool) (q : PQState T) (item : T)
    (hsz : q.size ≤ q.maxsize) (hmax : 1 ≤ q.maxsize) :
    (q.enqueue isHigh item).2.size ≤ q.maxsize := by
  have hnl : q.normal.isEmpty = true → q.normal.length = 0 := by
    intro h; simp [List.isEmpty_iff.mp h]
  have hhl : q.high.isEmpty = true → q.high.length = 0 := by
    intro h; simp [List.isEmpty_iff.mp h]
  have hnp : q.normal.isEmpty = false → 1 ≤ q.normal.length := by
    intro h
    exact List.length_pos.mpr (by simpa [List.isEmpty_iff] using h)
  have hhp : q.high.isEmpty = false → 1 ≤ q.high.length := by
    intro h
    exact List.length_pos.mpr (by simpa [List.isEmpty_iff] using h)
  simp only [PQState.enqueue, PQState.size] at *
  split_ifs <;>
    simp_all [List.length_tail] <;> omega

lemma enqueue_not_full {T : Type} (isHigh : T → Bool) (q : PQState T) (item : T)
    (h : q.size < q.maxsize) :
    (q.enqueue isHigh item).2.dropped = q.dropped ∧
    (q.enqueue isHigh item).2.high =
      (if isHigh item then q.high ++ [item] else q.high) ∧
    (q.enqueue isHigh item).2.normal =
      (if isHigh item then q.normal else q.normal ++ [item]) := by
  have hnf : ¬ q.maxsize ≤ q.size := not_le.mpr h
  simp only [PQState.enqueue]
  rw [if_neg hnf]
  split_ifs <;> simp_all

lemma enqueue_full {T : Type} (isHigh : T → Bool) (q : PQState T) (item : T)
    (h : q.maxsize ≤ q.size) :
    (q.enqueue isHigh item).2.dropped = q.dropped + 1 ∧
    (q.normal ≠ [] →
      (q.enqueue isHigh item).2.high =
        (if isHigh item then q.high ++ [item] else q.high) ∧
      (q.enqueue isHigh item).2.normal =
        (if isHigh item then q.normal.tail else q.normal.tail ++ [item])) ∧
    (q.normal = [] → q.high ≠ [] →
      (q.enqueue isHigh item).2.high =
        (if isHigh item then q.high.tail ++ [item] else q.high.tail) ∧
      (q.enqueue isHigh item).2.normal =
        (if isHigh item then [] else [item])) := by
  simp only [PQState.enqueue]
  rw [if_pos h]
  by_cases hn : q.normal.isEmpty
  · have hn' : q.normal = [] := List.isEmpty_iff.mp hn
    by_cases hh : q.high.isEmpty
    · have hh' : q.high = [] := List.isEmpty_iff.mp hh
      simp only [hn, hh]
      split_ifs <;> simp_all
    · simp only [hn, hh]
      split_ifs <;> simp_all
  · simp only [hn]
    have hn' : ¬ q.normal = [] := by simpa [List.isEmpty_iff] using hn
    split_ifs <;> simp_all

end Lemmas

/-- C4: `PrioritizedQueue.enqueue` always succeeds (returns `True`); when
the queue is at or over capacity it evicts exactly one item — the oldest
normal item when `normal` is non-empty, otherwise the oldest high item —
and counts one drop; the new item is then appended to its tier, so the
size stays within `maxsize` after every enqueue.  In particular, with
`maxsize = 3`, after enqueueing `h1` (high) and `n1`, `n2` (normal),
enqueueing `n3` (normal) evicts `n1`, and a batch with `max_batch = 4`
drains in order `[h1, n2, n3]`. -/
theorem C4_enqueue_eviction {T : Type} (isHigh : T → Bool) (q : PQState T)
    (item : T) (hsz : q.size ≤ q.maxsize) (hmax : 1 ≤ q.maxsize) :
    ((q.enqueue isHigh item).1 = true ∧
     (q.enqueue isHigh item).2.size ≤ q.maxsize ∧
     (q.size < q.maxsize →
       (q.enqueue isHigh item).2.dropped = q.dropped ∧
       (q.enqueue isHigh item).2.high =
         (if isHigh item then q.high ++ [item] else q.high) ∧
       (q.enqueue isHigh item).2.normal =
         (if isHigh item then q.normal else q.normal ++ [item])) ∧
     (q.maxsize ≤ q.size →
       (q.enqueue isHigh item).2.dropped = q.dropped + 1 ∧
       (q.normal ≠ [] →
         (q.enqueue isHigh item).2.high =
           (if isHigh item then q.high ++ [item] else q.high) ∧
         (q.enqueue isHigh item).2.normal =
           (if isHigh item then q.normal.tail else q.normal.tail ++ [item])) ∧
       (q.normal = [] → q.high ≠ [] →
         (q.enqueue isHigh item).2.high =
           (if isHigh item then q.high.tail ++ [item] else q.high.tail) ∧
         (q.enqueue isHigh item).2.normal =
           (if isHigh item then [] else [item])))) ∧
    (let f : String → Bool := fun s => s = "h1"
     let pq := ((((PQState.init String 3 4).enqueue f "h1").2.enqueue
       f "n1").2.enqueue f "n2").2.enqueue f "n3"
     pq.2.high = ["h1"] ∧ pq.2.normal = ["n2", "n3"] ∧ pq.2.dropped = 1 ∧
     pq.2.dequeueBatch.1 = [("h1", true), ("n2", false), ("n3", false)]) := by
  refine ⟨⟨rfl, size_enqueue_le isHigh q item hsz hmax, ?_, ?_⟩, by decide⟩
  · exact fun h => enqueue_not_full isHigh q item h
  · exact fun h => enqueue_full isHigh q item h

/-- Witness for C4 at a concrete queue in the non-full case. -/
theorem C4_enqueue_eviction_witness :
    (let f : String → Bool := fun _ => false
     let q : PQState String :=
       { high := ["a"], normal := ["b"], maxsize := 3, max_batch := 2,
         enqueued := 2, dropped := 0 }
     ((q.enqueue f "c").1 = true ∧
      (q.enqueue f "c").2.size ≤ q.maxsize ∧
      (q.size < q.maxsize →
        (q.enqueue f "c").2.dropped = q.dropped ∧
        (q.enqueue f "c").2.high =
          (if f "c" then q.high ++ ["c"] else q.high) ∧
        (q.enqueue f "c").2.normal =
          (if f "c" then q.normal else q.normal ++ ["c"])) ∧
      (q.maxsize ≤ q.size →
        (q.enqueue f "c").2.dropped = q.dropped + 1 ∧
        (q.normal ≠ [] →
          (q.enqueue f "c").2.high =
            (if f "c" then q.high ++ ["c"] else q.high) ∧
          (q.enqueue f "c").2.normal =
            (if f "c" then q.normal.tail else q.normal.tail ++ ["c"])) ∧
        (q.normal = [] → q.high ≠ [] →
          (q.enqueue f "c").2.high =
            (if f "c" then q.high.tail ++ ["c"] else q.high.tail) ∧
          (q.enqueue f "c").2.normal =
            (if f "c" then [] else ["c"])))) ∧
     (let f : String → Bool := fun s => s = "h1"
      let pq := ((((PQState.init String 3 4).enqueue f "h1").2.enqueue
        f "n1").2.enqueue f "n2").2.enqueue f "n3"
      pq.2.high = ["h1"] ∧ pq.2.normal = ["n2", "n3"] ∧ pq.2.dropped = 1 ∧
      pq.2.dequeueBatch.1 = [("h1", true), ("n2", false), ("n3", false)])) :=
  C4_enqueue_eviction _ _ _ (by decide) (by decide)

/-- C9: `Scheduler.shutdown` is idempotent and safe with zero running
tasks: a second call changes nothing, and after shutdown the task-state
table is cleared (so `health_snapshot` shows no tasks, in particular no
running ones), no task is still running, and `power_used` is zero. -/
theorem C9_shutdown_idempotent (s : SchedState) :
    s.shutdown.shutdown = s.shutdown ∧
    s.shutdown.task_state = [] ∧
    s.shutdown.power_used = 0 ∧
    s.shutdown.running_specs = [] ∧
    s.shutdown.health_snapshot = [] := by
  refine ⟨rfl, rfl, rfl, rfl, rfl⟩

section Lemmas2

open SchedState

lemma alookup_map_snd {α β : Type} (f : α → β) (name : String) :
    ∀ l : List (String × α),
      alookup (l.map (fun p => (p.1, f p.2))) name = (alookup l name).map f
  | [] => rfl
  | (k, v) :: rest => by
    by_cases h : k = name
    · simp [alookup, h]
    · simp [alookup, h, alookup_map_snd f name rest]

end Lemmas2

/-- C10: `health_snapshot` maps each task's stored state to a per-task
dict whose `status` and `last_error` are the stored values but whose
`restarts` and `last_heartbeat` are the decimal string representations of
the stored numbers; a string value never compares equal to an integer, so
a caller comparing the `restarts` entry against an integer never sees
equality. -/
theorem C10_snapshot_stringifies (s : SchedState) (name : String)
    (st : TaskState) (h : alookup s.task_state name = some st) :
    alookup s.health_snapshot name = some (SchedState.snapEntry st) ∧
    alookup (SchedState.snapEntry st) "status" = some (.vs st.status) ∧
    alookup (SchedState.snapEntry st) "last_error" =
      some (match st.last_error with | some m => .vs m | none => .vnone) ∧
    alookup (SchedState.snapEntry st) "restarts" =
      some (.vs (Nat.repr st.restarts)) ∧
    alookup (SchedState.snapEntry st) "last_heartbeat" =
      some (.vs (Nat.repr st.last_heartbeat)) ∧
    (∀ k : Int, PyVal.vs (Nat.repr st.restarts) ≠ PyVal.vi k) := by
  refine ⟨?_, by simp [SchedState.snapEntry, alookup],
    by simp [SchedState.snapEntry, alookup],
    by simp [SchedState.snapEntry, alookup],
    by simp [SchedState.snapEntry, alookup],
    fun k hk => PyVal.noConfusion hk⟩
  rw [SchedState.health_snapshot, alookup_map_snd, h]
  rfl

/-- Witness for C10 on a concrete scheduler state. -/
theorem C10_snapshot_stringifies_witness :
    (let st : TaskState :=
       { status := "failed", last_error := some "boom", restarts := 2,
         last_heartbeat := 7 }
     let s : SchedState :=
       { task_specs := [], task_state := [("w", st)], power_budget := 1,
         power_used := 0, running_specs := [], runs_started := [] }
     alookup s.health_snapshot "w" = some (SchedState.snapEntry st) ∧
     alookup (SchedState.snapEntry st) "status" = some (.vs st.status) ∧
     alookup (SchedState.snapEntry st) "last_error" =
       some (match st.last_error with | some m => .vs m | none => .vnone) ∧
     alookup (SchedState.snapEntry st) "restarts" =
       some (.vs (Nat.repr st.restarts)) ∧
     alookup (SchedState.snapEntry st) "last_heartbeat" =
       some (.vs (Nat.repr st.last_heartbeat)) ∧
     (∀ k : Int, PyVal.vs (Nat.repr st.restarts) ≠ PyVal.vi k)) :=
  C10_snapshot_stringifies _ "w" _ (by decide)

section HistoryLemmas

open BusState

lemma enqueueHandler_history (b : BusState) (h : Handler) (e : Event) :
    (b.enqueueHandler h e).history = b.history ∧
    (b.enqueueHandler h e).max_history = b.max_history := by
  simp only [enqueueHandler]
  split_ifs <;> exact ⟨rfl, rfl⟩

lemma foldl_enqueueHandler_history (e : Event) :
    ∀ (hs : List Handler) (b : BusState),
      (hs.foldl (fun acc h => acc.enqueueHandler h e) b).history = b.history ∧
      (hs.foldl (fun acc h => acc.enqueueHandler h e) b).max_history = b.max_history
  | [], b => ⟨rfl, rfl⟩
  | h :: hs, b => by
    have ih := foldl_enqueueHandler_history e hs (b.enqueueHandler h e)
    have eh := enqueueHandler_history b h e
    exact ⟨ih.1.trans eh.1, ih.2.trans eh.2⟩

lemma publish_history (b : BusState) (e : Event) :
    (b.publish e).history = histAppend b.history e b.max_history ∧
    (b.publish e).max_history = b.max_history := by
  simp only [publish]
  split_ifs
  · exact ⟨rfl, rfl⟩
  · exact foldl_enqueueHandler_history e (b.matched e) _

lemma foldl_histAppend (cap : Nat) :
    ∀ (es : List Event) (h : List Event), h.length ≤ cap →
      es.foldl (fun acc x => histAppend acc x cap) h =
        (h ++ es).drop (h.length + es.length - cap)
  | [], h, hh => by
    simp [Nat.sub_eq_zero_of_le hh]
  | a :: es, h, hh => by
    have hlen : (histAppend h a cap).length = (h ++ [a]).length - ((h ++ [a]).length - cap) := by
      simp [histAppend, List.length_drop]
    have hle : (histAppend h a cap).length ≤ cap := by
      rw [hlen]; omega
    have ih := foldl_histAppend cap es (histAppend h a cap) hle
    have hk : (h ++ [a]).length - cap ≤ (h ++ [a]).length := Nat.sub_le _ _
    calc ((a :: es).foldl (fun acc x => histAppend acc x cap) h)
        = es.foldl (fun acc x => histAppend acc x cap) (histAppend h a cap) := rfl
      _ = (histAppend h a cap ++ es).drop
            ((histAppend h a cap).length + es.length - cap) := ih
      _ = (((h ++ [a]) ++ es).drop ((h ++ [a]).length - cap)).drop
            ((histAppend h a cap).length + es.length - cap) := by
          rw [histAppend, List.drop_append_of_le_length hk]
      _ = ((h ++ [a]) ++ es).drop (((h ++ [a]).length - cap) +
            ((histAppend h a cap).length + es.length - cap)) := by
          rw [List.drop_drop, Nat.add_comm]
      _ = (h ++ a :: es).drop (h.length + (a :: es).length - cap) := by
          rw [List.append_assoc]
          congr 1
          have l1 : (h ++ [a]).length = h.length + 1 := by simp
          have l2 : (histAppend h a cap).length =
              (h.length + 1) - ((h.length + 1) - cap) := by rw [hlen, l1]
          simp only [l1, l2, List.length_cons]
          omega

lemma history_after_publishes :
    ∀ (es : List Event) (b : BusState),
      (es.foldl BusState.publish b).history =
        es.foldl (fun acc x => histAppend acc x b.max_history) b.history ∧
      (es.foldl BusState.publish b).max_history = b.max_history
  | [], b => ⟨rfl, rfl⟩
  | e :: es, b => by
    have ph := publish_history b e
    have ih := history_after_publishes es (b.publish e)
    rw [List.foldl_cons, List.foldl_cons]
    rw [ph.2] at ih
    exact ⟨ih.1.trans (by rw [ph.1]), ih.2⟩

end HistoryLemmas

/-- C5: for every sequence of publish calls starting from a bus with
empty history, the history retains exactly the last
`min(N, max_history)` published events in publish order, oldest evicted
first; with `max_history = 3`, publishing `a, b, c, d` and then calling
`recent_events 10` yields exactly `[b, c, d]`. -/
theorem C5_history_retention (b0 : BusState) (es : List Event)
    (h0 : b0.history = []) :
    ((es.foldl BusState.publish b0).history =
        es.drop (es.length - b0.max_history) ∧
     (es.foldl BusState.publish b0).history.length =
        min es.length b0.max_history) ∧
    (∀ a b c d : Event,
      ([a, b, c, d].foldl BusState.publish (BusState.init 3)).recent_events 10
        = [b, c, d]) := by
  constructor
  · have h := (history_after_publishes es b0).1
    rw [h0] at h
    rw [h, foldl_histAppend b0.max_history es [] (by simp)]
    refine ⟨by simp, ?_⟩
    simp [List.length_drop]
    omega
  · intro a b c d
    have h := (history_after_publishes [a, b, c, d] (BusState.init 3)).1
    have hcap : (BusState.init 3).max_history = 3 := rfl
    rw [hcap] at h
    have h2 : ([a, b, c, d].foldl BusState.publish (BusState.init 3)).history
        = [b, c, d] := by
      rw [h]
      simp [BusState.histAppend, BusState.init]
    simp only [BusState.recent_events, h2]
    norm_num

/-- Witness for C5 at a concrete bus and event sequence. -/
theorem C5_history_retention_witness :
    (let es : List Event := [⟨"t", [], "s", "A", 0⟩, ⟨"t", [], "s", "B", 1⟩,
       ⟨"t", [], "s", "C", 2⟩, ⟨"t", [], "s", "D", 3⟩]
     let b0 := BusState.init 3
     ((es.foldl BusState.publish b0).history =
         es.drop (es.length - b0.max_history) ∧
      (es.foldl BusState.publish b0).history.length =
         min es.length b0.max_history) ∧
     (∀ a b c d : Event,
       ([a, b, c, d].foldl BusState.publish (BusState.init 3)).recent_events 10
         = [b, c, d])) :=
  C5_history_retention _ _ rfl

section WorkerLemmas

open BusState

lemma enqueueHandler_invocations (b : BusState) (h : Handler) (e : Event) :
    (b.enqueueHandler h e).invocations = b.invocations := by
  simp only [enqueueHandler]
  split_ifs <;> rfl

lemma enqueueHandler_acct (b : BusState) (h : Handler) (e : Event) :
    (b.enqueueHandler h e).queue.length + (b.enqueueHandler h e).dropped_count
      = b.queue.length + b.dropped_count + 1 := by
  simp only [enqueueHandler]
  split_ifs <;> simp <;> omega

lemma foldl_enqueueHandler_invocations (e : Event) :
    ∀ (hs : List Handler) (b : BusState),
      (hs.foldl (fun acc h => acc.enqueueHandler h e) b).invocations
        = b.invocations
  | [], _ => rfl
  | h :: hs, b =>
    (foldl_enqueueHandler_invocations e hs (b.enqueueHandler h e)).trans
      (enqueueHandler_invocations b h e)

lemma foldl_enqueueHandler_acct (e : Event) :
    ∀ (hs : List Handler) (b : BusState),
      (hs.foldl (fun acc h => acc.enqueueHandler h e) b).queue.length +
        (hs.foldl (fun acc h => acc.enqueueHandler h e) b).dropped_count
      = b.queue.length + b.dropped_count + hs.length
  | [], _ => rfl
  | h :: hs, b => by
    have ih := foldl_enqueueHandler_acct e hs (b.enqueueHandler h e)
    have ha := enqueueHandler_acct b h e
    simp only [List.foldl_cons, List.length_cons]
    omega

lemma workerStep_queue (b : BusState) (p : Handler × Event)
    (rest : List (Handler × Event)) (hq : b.queue = p :: rest) :
    (b.workerStep).queue = rest := by
  obtain ⟨h, e⟩ := p
  simp only [workerStep, hq]
  split_ifs with hm
  · rfl
  · cases h.run e <;> rfl

lemma runWorkersFuel_queue :
    ∀ (n : Nat) (b : BusState), b.queue.length ≤ n →
      (runWorkersFuel n b).queue = []
  | 0, b, hn => by
    have : b.queue = [] := List.length_eq_zero.mp (Nat.le_zero.mp hn)
    simpa [runWorkersFuel] using this
  | n + 1, b, hn => by
    rw [runWorkersFuel]
    split_ifs with he
    · exact List.isEmpty_iff.mp he
    · match hq : b.queue with
      | [] => exact absurd (by simp [hq]) he
      | p :: rest =>
        refine runWorkersFuel_queue n b.workerStep ?_
        rw [workerStep_queue b p rest hq]
        have := congrArg List.length hq
        simp at this
        omega

lemma runWorkers_queue (b : BusState) : (b.runWorkers).queue = [] :=
  runWorkersFuel_queue _ b le_rfl

end WorkerLemmas

/-- C1 counterexample: on a fresh bus with one handler subscribed to
`"t"`, after `publish` of a `"t"` event returns, the matched handler set
has one element, yet no handler invocation has happened and nothing was
dropped — the delivery attempt is still pending on the worker queue.
This refutes the claim that every per-handler invocation has resolved by
the time `publish` returns. -/
theorem C1_publish_pending_counterexample :
    (let b0 := (BusState.init).subscribe "t" ⟨"h", fun _ => HResult.ok⟩
     let e : Event := ⟨"t", [], "s", "A", 0⟩
     (b0.matched e).length = 1 ∧
     (b0.publish e).queue.length = 1 ∧
     (b0.publish e).invocations = [] ∧
     (b0.publish e).dropped_count = 0 ∧
     ¬ ((b0.publish e).queue.length = 0)) := by
  refine ⟨rfl, rfl, rfl, rfl, by decide⟩

/-- C1 amended: `publish` returns only after every per-handler *enqueue*
attempt has resolved — for each matched handler either a work item is
placed on the worker queue or the attempt is dropped and counted — but no
handler invocation happens inside `publish` itself; invocations are
performed by the worker loop, and draining the workers leaves no pending
attempt. -/
theorem C1_publish_enqueues_only (b : BusState) (e : Event) :
    (b.publish e).invocations = b.invocations ∧
    (b.publish e).queue.length + (b.publish e).dropped_count
      = b.queue.length + b.dropped_count + (b.matched e).length ∧
    ((b.publish e).runWorkers).queue = [] := by
  refine ⟨?_, ?_, runWorkers_queue _⟩
  · simp only [BusState.publish]
    split_ifs
    · rfl
    · exact foldl_enqueueHandler_invocations e (b.matched e) _
  · simp only [BusState.publish]
    split_ifs with he
    · simp [List.isEmpty_iff.mp he]
    · have h := foldl_enqueueHandler_acct e (b.matched e)
        { b with history := BusState.histAppend b.history e b.max_history,
                 published_count := b.published_count + 1 }
      simpa using h

section InvokeLemmas

open BusState

lemma alookup_aset_self {α : Type} (key : String) (v : α) :
    ∀ l : List (String × α), alookup (aset l key v) key = some v
  | [] => by simp [alookup, aset]
  | (k, w) :: rest => by
    by_cases h : k = key
    · simp [alookup, aset, h]
    · simp [alookup, aset, h, alookup_aset_self key v rest]

lemma alookup_abump (l : List (String × Nat)) (key : String) :
    (alookup (abump l key) key).getD 0 = (alookup l key).getD 0 + 1 := by
  rw [abump, alookup_aset_self]
  rfl

lemma workerStep_invoked (b : BusState) (p : Handler × Event)
    (rest : List (Handler × Event)) (hq : b.queue = p :: rest)
    (hm : 1 ≤ b.max_in_flight) :
    (b.workerStep).invocations = b.invocations ++ [(p.1.key, p.2.event_id)] ∧
    (b.workerStep).max_in_flight = b.max_in_flight := by
  obtain ⟨h, e⟩ := p
  have hm0 : ¬ (b.max_in_flight = 0) := by omega
  simp only [workerStep, hq]
  rw [if_neg hm0]
  cases h.run e <;> exact ⟨rfl, rfl⟩

lemma runWorkersFuel_invocations :
    ∀ (n : Nat) (b : BusState), b.queue.length ≤ n → 1 ≤ b.max_in_flight →
      (runWorkersFuel n b).invocations
        = b.invocations ++ b.queue.map (fun p => (p.1.key, p.2.event_id))
  | 0, b, hn, _ => by
    have : b.queue = [] := List.length_eq_zero.mp (Nat.le_zero.mp hn)
    simp [runWorkersFuel, this]
  | n + 1, b, hn, hm => by
    rw [runWorkersFuel]
    split_ifs with he
    · simp [List.isEmpty_iff.mp he]
    · match hq : b.queue with
      | [] => exact absurd (by simp [hq]) he
      | p :: rest =>
        have hstep := workerStep_invoked b p rest hq hm
        have hql := workerStep_queue b p rest hq
        have hlen : b.workerStep.queue.length ≤ n := by
          rw [hql]
          have := congrArg List.length hq
          simp at this
          omega
        rw [runWorkersFuel_invocations n b.workerStep hlen (by rw [hstep.2]; exact hm),
          hstep.1, hql]
        simp [List.append_assoc]

lemma runWorkers_invocations (b : BusState) (hm : 1 ≤ b.max_in_flight) :
    (b.runWorkers).invocations
      = b.invocations ++ b.queue.map (fun p => (p.1.key, p.2.event_id)) :=
  runWorkersFuel_invocations _ b le_rfl hm

end InvokeLemmas

/-- C6: a handler that raises is fully isolated: the worker invoking it
catches the exception (no exception reaches the publisher), increments
the global and per-handler error counters by exactly one, and leaves the
rest of the queue, the history, and every other counter untouched; every
other queued delivery for the event is still performed (draining the
workers invokes every queued handler exactly once). -/
theorem C6_handler_error_isolated (b : BusState) (h : Handler) (e : Event)
    (rest : List (Handler × Event)) (hq : b.queue = (h, e) :: rest)
    (hm : 1 ≤ b.max_in_flight) (hr : h.run e = HResult.error) :
    (b.workerStep).error_count = b.error_count + 1 ∧
    (alookup (b.workerStep).handler_errors h.key).getD 0
      = (alookup b.handler_errors h.key).getD 0 + 1 ∧
    (b.workerStep).invocations = b.invocations ++ [(h.key, e.event_id)] ∧
    (b.workerStep).queue = rest ∧
    (b.workerStep).history = b.history ∧
    (b.workerStep).published_count = b.published_count ∧
    (b.workerStep).dropped_count = b.dropped_count ∧
    (b.workerStep).timeout_count = b.timeout_count ∧
    (b.workerStep).handler_timeouts = b.handler_timeouts ∧
    (b.workerStep).subscribers = b.subscribers ∧
    (b.runWorkers).invocations
      = b.invocations ++ b.queue.map (fun p => (p.1.key, p.2.event_id)) := by
  have hm0 : ¬ (b.max_in_flight = 0) := by omega
  have hstep : b.workerStep =
      { b with queue := rest,
               error_count := b.error_count + 1,
               handler_errors := abump b.handler_errors h.key,
               invocations := b.invocations ++ [(h.key, e.event_id)] } := by
    simp only [BusState.workerStep, hq]
    rw [if_neg hm0, hr]
  rw [hstep]
  exact ⟨rfl, alookup_abump b.handler_errors h.key, rfl, rfl, rfl, rfl, rfl,
    rfl, rfl, rfl, runWorkers_invocations b hm⟩

/-- Witness for C6 at a concrete bus whose queue holds one erroring
handler. -/
theorem C6_handler_error_isolated_witness :
    (let h : Handler := ⟨"bad", fun _ => HResult.error⟩
     let e : Event := ⟨"t", [], "s", "A", 0⟩
     let b : BusState :=
       { subscribers := [], history := [e], max_history := 5,
         max_in_flight := 50, queue := [(h, e)], queue_maxsize := 5,
         published_count := 1, dropped_count := 0, error_count := 0,
         timeout_count := 0, handler_timeouts := [], handler_errors := [],
         invocations := [] }
     (b.workerStep).error_count = b.error_count + 1 ∧
     (alookup (b.workerStep).handler_errors h.key).getD 0
       = (alookup b.handler_errors h.key).getD 0 + 1 ∧
     (b.workerStep).invocations = b.invocations ++ [(h.key, e.event_id)] ∧
     (b.workerStep).queue = [] ∧
     (b.workerStep).history = b.history ∧
     (b.workerStep).published_count = b.published_count ∧
     (b.workerStep).dropped_count = b.dropped_count ∧
     (b.workerStep).timeout_count = b.timeout_count ∧
     (b.workerStep).handler_timeouts = b.handler_timeouts ∧
     (b.workerStep).subscribers = b.subscribers ∧
     (b.runWorkers).invocations
       = b.invocations ++ b.queue.map (fun p => (p.1.key, p.2.event_id))) :=
  C6_handler_error_isolated _ _ _ [] rfl (by norm_num) rfl

section ReplayLemmas

lemma replayGo_nolimit (etype : String) (since : Option Nat)
    (limit : Option Nat) (hl : limit = none ∨ limit = some 0) :
    ∀ (l : List Event) (r : Nat),
      replayGo etype since limit l r = l.filter (replayMatch etype since)
  | [], _ => by cases hl <;> simp_all [replayGo]
  | e :: l, r => by
    have hrec1 := replayGo_nolimit etype since limit hl l (r + 1)
    have hrec2 := replayGo_nolimit etype since limit hl l r
    by_cases hmatch : replayMatch etype since e
    · rcases hl with h | h <;> subst h <;>
        simp [replayGo, hmatch, List.filter_cons, hrec1]
    · simp [replayGo, hmatch, List.filter_cons, hrec2]

lemma replayGo_limit (etype : String) (since : Option Nat) (n : Nat)
    (hn : 1 ≤ n) :
    ∀ (l : List Event) (r : Nat), r < n →
      replayGo etype since (some n) l r =
        (l.filter (replayMatch etype since)).take (n - r)
  | [], r, _ => by simp [replayGo]
  | e :: l, r, hr => by
    by_cases hmatch : replayMatch etype since e
    · by_cases hbreak : n ≤ r + 1
      · have hnr : n - r = 1 := by omega
        have hcond : (n ≠ 0 ∧ n ≤ r + 1) := ⟨by omega, hbreak⟩
        simp [replayGo, hmatch, List.filter_cons, hnr, hcond]
      · have hrec := replayGo_limit etype since n hn l (r + 1) (by omega)
        have hnr : n - r = (n - (r + 1)) + 1 := by omega
        simp only [replayGo, hmatch, if_true, List.filter_cons, hnr]
        have hcond : ¬ (n ≠ 0 ∧ n ≤ r + 1) := by omega
        simp [hcond, hrec, hmatch, List.take_succ_cons]
    · simp [replayGo, hmatch, List.filter_cons,
        replayGo_limit etype since n hn l r hr]

end ReplayLemmas

/-- C7 counterexample: with one matching event in history and
`limit = 0`, `replay` invokes the handler on that event — `limit = 0` is
falsy in Python, so the `limit and replayed >= limit` break never fires —
refuting the claim that `limit = 0` causes no handler invocation. -/
theorem C7_replay_limit_zero_counterexample :
    (let b := (BusState.init 10).publish ⟨"t", [], "s", "A", 0⟩
     b.replayHandled "t" none (some 0) = [⟨"t", [], "s", "A", 0⟩] ∧
     ¬ (b.replayHandled "t" none (some 0) = [])) := by
  exact ⟨rfl, by decide⟩

/-- C7 amended: `replay` visits the history oldest-to-newest, handles
exactly the events matching the type filter (all of them for `"*"`) and
`created_at ≥ since` when `since` is given, and stops after `limit`
matches when `limit` is given and positive; `limit = None` and
`limit = 0` both impose no bound. -/
theorem C7_replay_filter_take (b : BusState) (etype : String)
    (since : Option Nat) (limit : Option Nat) :
    b.replayHandled etype since limit =
      (b.history.filter (replayMatch etype since)).take
        (replayBound limit (b.history.filter (replayMatch etype since)).length) := by
  match limit with
  | none =>
    rw [BusState.replayHandled,
      replayGo_nolimit etype since none (Or.inl rfl) b.history 0]
    simp [replayBound]
  | some 0 =>
    rw [BusState.replayHandled,
      replayGo_nolimit etype since (some 0) (Or.inr rfl) b.history 0]
    simp [replayBound]
  | some (n + 1) =>
    rw [BusState.replayHandled,
      replayGo_limit etype since (n + 1) (by omega) b.history 0 (by omega)]
    simp [replayBound]

section PublishLemmas

open BusState

lemma foldl_enqueueHandler_append (e : Event) :
    ∀ (hs : List Handler) (b : BusState),
      (b.queue_maxsize = 0 ∨ b.queue.length + hs.length ≤ b.queue_maxsize) →
      (hs.foldl (fun acc h => acc.enqueueHandler h e) b).queue
          = b.queue ++ hs.map (fun h => (h, e)) ∧
      (hs.foldl (fun acc h => acc.enqueueHandler h e) b).dropped_count
          = b.dropped_count
  | [], b, _ => by simp
  | h :: hs, b, hcap => by
    have hroom : b.queue_maxsize = 0 ∨ b.queue.length < b.queue_maxsize := by
      rcases hcap with h0 | hle
      · exact Or.inl h0
      · right; simp at hle; omega
    have hb : b.enqueueHandler h e = { b with queue := b.queue ++ [(h, e)] } := by
      simp only [enqueueHandler]
      rw [if_pos]
      rcases hroom with h0 | hlt
      · exact Or.inl h0
      · exact Or.inr hlt
    have hcap' : (b.enqueueHandler h e).queue_maxsize = 0 ∨
        (b.enqueueHandler h e).queue.length + hs.length ≤
          (b.enqueueHandler h e).queue_maxsize := by
      rw [hb]
      rcases hcap with h0 | hle
      · exact Or.inl h0
      · right; simp at hle ⊢; omega
    have ih := foldl_enqueueHandler_append e hs (b.enqueueHandler h e) hcap'
    rw [List.foldl_cons] at *
    refine ⟨?_, ?_⟩
    · rw [ih.1, hb]
      simp
    · rw [ih.2, hb]

end PublishLemmas

/-- C8 counterexample: a handler registered only under `"*"`, with a
published event whose `event_type` is itself `"*"`, is matched twice —
`publish` concatenates the subscribers of the event's type with the
subscribers of `"*"`, which are the same list — so it receives two
delivery attempts, not exactly one as the claim states. -/
theorem C8_wildcard_duplicate_counterexample :
    (let b0 := (BusState.init).subscribe "*" ⟨"h", fun _ => HResult.ok⟩
     let e : Event := ⟨"*", [], "s", "W", 0⟩
     (b0.matched e).length = 2 ∧
     (b0.publish e).queue.length = 2 ∧
     ¬ ((b0.publish e).queue.length = 1)) :=
  ⟨rfl, rfl, by decide⟩

/-- C8 amended: the handlers `publish` attempts to deliver to form the
list concatenation of the subscribers of `event.event_type` and the
subscribers of `"*"` (each list entry attempted once, within queue
capacity, in that order); when `event_type` is `"*"` itself the wildcard
subscriber list therefore appears twice; and when the concatenation is
empty, `publish` returns after only appending to history and
incrementing the published count. -/
theorem C8_matched_concatenation (b : BusState) (e : Event) :
    ((b.queue_maxsize = 0 ∨
        b.queue.length + (b.matched e).length ≤ b.queue_maxsize) →
      (b.publish e).queue = b.queue ++ (b.matched e).map (fun h => (h, e)) ∧
      (b.publish e).dropped_count = b.dropped_count) ∧
    (e.event_type = "*" →
      b.matched e = ((alookup b.subscribers "*").getD []) ++
        ((alookup b.subscribers "*").getD [])) ∧
    (b.matched e = [] →
      b.publish e = { b with
        history := BusState.histAppend b.history e b.max_history,
        published_count := b.published_count + 1 }) := by
  refine ⟨?_, ?_, ?_⟩
  · intro hcap
    simp only [BusState.publish]
    split_ifs with he
    · simp [List.isEmpty_iff.mp he]
    · exact foldl_enqueueHandler_append e (b.matched e) _ hcap
  · intro h
    rw [BusState.matched, h]
  · intro h
    simp [BusState.publish, h]

/-- Witness for C8 on a concrete bus with one subscriber. -/
theorem C8_matched_concatenation_witness :
    (let b0 := (BusState.init).subscribe "t" ⟨"h", fun _ => HResult.ok⟩
     let e : Event := ⟨"t", [], "s", "A", 0⟩
     ((b0.queue_maxsize = 0 ∨
         b0.queue.length + (b0.matched e).length ≤ b0.queue_maxsize) →
       (b0.publish e).queue = b0.queue ++ (b0.matched e).map (fun h => (h, e)) ∧
       (b0.publish e).dropped_count = b0.dropped_count) ∧
     (e.event_type = "*" →
       b0.matched e = ((alookup b0.subscribers "*").getD []) ++
         ((alookup b0.subscribers "*").getD [])) ∧
     (b0.matched e = [] →
       b0.publish e = { b0 with
         history := BusState.histAppend b0.history e b0.max_history,
         published_count := b0.published_count + 1 })) :=
  C8_matched_concatenation _ _

section BudgetLemmas

open SchedState

lemma ensure_task_budget (s : SchedState) (spec : TaskSpec) :
    (s.ensure_task spec).power_budget = s.power_budget := by
  simp only [ensure_task]
  split_ifs <;> rfl

lemma ensure_task_inv (s : SchedState) (spec : TaskSpec)
    (h : s.power_used ≤ s.power_budget) :
    (s.ensure_task spec).power_used ≤ s.power_budget := by
  simp only [ensure_task]
  split_ifs with h1 h2
  · exact h
  · exact h
  · simp only []
    linarith [not_lt.mp h2]

lemma on_task_done_budget (s : SchedState) (spec : TaskSpec)
    (out : TaskOutcome) :
    (s.on_task_done spec out).power_budget = s.power_budget := by
  simp only [on_task_done]
  cases out with
  | cancelled => rfl
  | returned => rfl
  | raised msg =>
    split_ifs with h1
    · rw [ensure_task_budget]
    · rfl

lemma on_task_done_inv (s : SchedState) (spec : TaskSpec) (out : TaskOutcome)
    (h : s.power_used ≤ s.power_budget) (hc : 0 ≤ spec.power_cost)
    (hb : 0 ≤ s.power_budget) :
    (s.on_task_done spec out).power_used ≤ s.power_budget := by
  have hmax : max (s.power_used - spec.power_cost) 0 ≤ s.power_budget :=
    max_le (by linarith) hb
  simp only [on_task_done]
  cases out with
  | cancelled => exact hmax
  | returned => exact hmax
  | raised msg =>
    split_ifs with h1
    · exact ensure_task_inv _ spec hmax
    · exact hmax

lemma schedule_budget (s : SchedState) (spec : TaskSpec) :
    (s.schedule spec).power_budget = s.power_budget := by
  rw [schedule, ensure_task_budget]

lemma schedule_inv (s : SchedState) (spec : TaskSpec)
    (h : s.power_used ≤ s.power_budget) :
    (s.schedule spec).power_used ≤ s.power_budget := by
  rw [schedule]
  exact ensure_task_inv _ spec h

lemma applyOp_budget (s : SchedState) (op : SchedOp) :
    (s.applyOp op).power_budget = s.power_budget := by
  cases op with
  | sched spec => exact schedule_budget s spec
  | taskDone spec out => exact on_task_done_budget s spec out

lemma applyOp_inv (s : SchedState) (op : SchedOp)
    (h : s.power_used ≤ s.power_budget) (hc : 0 ≤ op.cost)
    (hb : 0 ≤ s.power_budget) :
    (s.applyOp op).power_used ≤ s.power_budget := by
  cases op with
  | sched spec => exact schedule_inv s spec h
  | taskDone spec out => exact on_task_done_inv s spec out h hc hb

lemma runOps_inv :
    ∀ (ops : List SchedOp) (s : SchedState),
      (∀ op ∈ ops, 0 ≤ op.cost) → 0 ≤ s.power_budget →
      s.power_used ≤ s.power_budget →
      (s.runOps ops).power_used ≤ s.power_budget
  | [], _, _, _, h => h
  | op :: ops, s, hcosts, hb, h => by
    have h1 := applyOp_inv s op h (hcosts op (by simp)) hb
    have hb1 := applyOp_budget s op
    have := runOps_inv ops (s.applyOp op)
      (fun o ho => hcosts o (by simp [ho])) (by rw [hb1]; exact hb)
      (by rw [hb1]; exact h1)
    rw [hb1] at this
    exact this

lemma ensure_task_admitted (s : SchedState) (spec : TaskSpec)
    (hrun : (s.stateOf spec.name).status ≠ "running")
    (hfit : ¬ s.power_budget < s.power_used + spec.power_cost) :
    s.ensure_task spec = { s with
      task_state := aset (aset s.task_state spec.name (s.stateOf spec.name))
        spec.name { s.stateOf spec.name with status := "running" },
      power_used := s.power_used + spec.power_cost,
      running_specs := s.running_specs ++ [spec],
      runs_started := s.runs_started ++ [spec.name] } := by
  simp only [SchedState.ensure_task]
  rw [if_neg hrun, if_neg hfit]

lemma ensure_task_defer (s : SchedState) (spec : TaskSpec)
    (hrun : (s.stateOf spec.name).status ≠ "running")
    (hover : s.power_budget < s.power_used + spec.power_cost) :
    s.ensure_task spec = { s with
      task_state := aset (aset s.task_state spec.name (s.stateOf spec.name))
        spec.name { s.stateOf spec.name with status := "pending" } } := by
  simp only [SchedState.ensure_task]
  rw [if_neg hrun, if_pos hover]

lemma schedule_eq (s : SchedState) (spec : TaskSpec) :
    s.schedule spec =
      SchedState.ensure_task
        { s with task_specs := SchedState.specInsert spec s.task_specs } spec := rfl

lemma ensure_task_deferred (s : SchedState) (spec : TaskSpec)
    (hrun : (s.stateOf spec.name).status ≠ "running")
    (hover : s.power_budget < s.power_used + spec.power_cost) :
    (s.ensure_task spec).power_used = s.power_used ∧
    ((s.ensure_task spec).stateOf spec.name).status = "pending" ∧
    (s.ensure_task spec).runs_started = s.runs_started := by
  simp only [ensure_task]
  rw [if_neg hrun, if_pos hover]
  refine ⟨rfl, ?_, rfl⟩
  simp [stateOf, alookup_aset_self]

end BudgetLemmas

/-- C3: the scheduler never lets `power_used` exceed `power_budget`: for
every sequence of schedule calls and task completions with non-negative
power costs (and a non-negative budget), `power_used ≤ power_budget`
holds throughout; whenever `power_used + power_cost > power_budget` at
admission of a non-running task, the task is left `pending` and no run is
started with `power_used` unchanged.  In particular, with
`power_budget = 1.0`, scheduling A with cost 0.6 and then B with cost
0.6 leaves B `pending` while A is `running`. -/
theorem C3_power_budget_respected (budget : ℚ) (ops : List SchedOp)
    (hb : 0 ≤ budget) (hcosts : ∀ op ∈ ops, 0 ≤ op.cost) :
    ((SchedState.init budget).runOps ops).power_used ≤ budget ∧
    (∀ (s : SchedState) (spec : TaskSpec),
      (s.stateOf spec.name).status ≠ "running" →
      s.power_budget < s.power_used + spec.power_cost →
      (s.ensure_task spec).power_used = s.power_used ∧
      ((s.ensure_task spec).stateOf spec.name).status = "pending" ∧
      (s.ensure_task spec).runs_started = s.runs_started) ∧
    (let sAB := ((SchedState.init 1).schedule
        ⟨"A", 100, 6/10, true, 3⟩).schedule ⟨"B", 100, 6/10, true, 3⟩
     (alookup sAB.health_snapshot "B").bind (fun d => alookup d "status")
        = some (.vs "pending") ∧
     (alookup sAB.health_snapshot "A").bind (fun d => alookup d "status")
        = some (.vs "running") ∧
     sAB.power_used = 6/10 ∧ sAB.power_used ≤ 1) := by
  refine ⟨runOps_inv ops (SchedState.init budget) hcosts hb hb,
    fun s spec h1 h2 => ensure_task_deferred s spec h1 h2, ?_⟩
  have hA : ((SchedState.init 1).schedule ⟨"A", 100, 6/10, true, 3⟩)
      = SchedState.ensure_task
          { SchedState.init 1 with
            task_specs := SchedState.specInsert ⟨"A", 100, 6/10, true, 3⟩ [] }
          ⟨"A", 100, 6/10, true, 3⟩ := rfl
  rw [hA, ensure_task_admitted _ _ (by simp [SchedState.stateOf, SchedState.init,
      alookup, TaskState.initial]) (by simp [SchedState.init]; norm_num)]
  rw [schedule_eq, ensure_task_defer _ _ (by simp [SchedState.stateOf,
      SchedState.init, alookup, aset, TaskState.initial])
      (by simp [SchedState.init]; norm_num)]
  refine ⟨?_, ?_, ?_, ?_⟩
  · simp [SchedState.health_snapshot, SchedState.snapEntry, SchedState.stateOf,
      SchedState.init, alookup, aset, TaskState.initial]
  · simp [SchedState.health_snapshot, SchedState.snapEntry, SchedState.stateOf,
      SchedState.init, alookup, aset, TaskState.initial]
  · simp [SchedState.init]
  · simp [SchedState.init]; norm_num

/-- Witness for C3 at a concrete budget and operation sequence. -/
theorem C3_power_budget_respected_witness :
    (let budget : ℚ := 2
     let ops : List SchedOp := [.sched ⟨"A", 100, 1, true, 3⟩,
       .sched ⟨"B", 50, 2, true, 3⟩, .taskDone ⟨"A", 100, 1, true, 3⟩ .returned]
     ((SchedState.init budget).runOps ops).power_used ≤ budget ∧
     (∀ (s : SchedState) (spec : TaskSpec),
       (s.stateOf spec.name).status ≠ "running" →
       s.power_budget < s.power_used + spec.power_cost →
       (s.ensure_task spec).power_used = s.power_used ∧
       ((s.ensure_task spec).stateOf spec.name).status = "pending" ∧
       (s.ensure_task spec).runs_started = s.runs_started) ∧
     (let sAB := ((SchedState.init 1).schedule
         ⟨"A", 100, 6/10, true, 3⟩).schedule ⟨"B", 100, 6/10, true, 3⟩
      (alookup sAB.health_snapshot "B").bind (fun d => alookup d "status")
         = some (.vs "pending") ∧
      (alookup sAB.health_snapshot "A").bind (fun d => alookup d "status")
         = some (.vs "running") ∧
      sAB.power_used = 6/10 ∧ sAB.power_used ≤ 1)) :=
  C3_power_budget_respected 2 _ (by norm_num)
    (by intro op hop; fin_cases hop <;> simp [SchedOp.cost])

section SettleLemmas

open SchedState

lemma settleFailing_always_raises (name msg : String) (budget cost : ℚ)
    (hb : cost ≤ budget) :
    (let spec : TaskSpec := ⟨name, 100, cost, true, 2⟩
     ((SchedState.init budget).schedule spec).settleFailing spec msg =
       { task_specs := [spec],
         task_state := [(name, ⟨"failed", some msg, 2, 0⟩)],
         power_budget := budget, power_used := 0, running_specs := [],
         runs_started := [name, name, name] }) := by
  intro spec
  have hnb : ¬ budget < cost := not_lt.mpr hb
  have h1 : (SchedState.init budget).schedule spec =
      { task_specs := [spec],
        task_state := [(name, ⟨"running", none, 0, 0⟩)],
        power_budget := budget, power_used := cost,
        running_specs := [spec], runs_started := [name] } := by
    rw [schedule_eq, ensure_task_admitted]
    · simp [SchedState.init, stateOf, alookup, aset, specInsert,
        TaskState.initial]
    · simp [SchedState.init, stateOf, alookup, TaskState.initial]
    · simpa [SchedState.init] using hnb
  have hcycle0 : ∀ runs : List String,
      SchedState.on_task_done
        { task_specs := [spec],
          task_state := [(name, ⟨"running", none, 0, 0⟩)],
          power_budget := budget, power_used := cost,
          running_specs := [spec], runs_started := runs }
        spec (.raised msg) =
      { task_specs := [spec],
        task_state := [(name, ⟨"running", some msg, 1, 0⟩)],
        power_budget := budget, power_used := cost,
        running_specs := [spec], runs_started := runs ++ [name] } := by
    intro runs
    simp only [on_task_done, stateOf, alookup, aset, removeRunning,
      if_true, Option.getD_some]
    rw [if_pos (by simp)]
    rw [ensure_task_admitted]
    · simp [stateOf, alookup, aset, sub_self]
    · simp [stateOf, alookup, aset]
    · simpa [sub_self] using hnb
  have hcycle1 : ∀ runs : List String,
      SchedState.on_task_done
        { task_specs := [spec],
          task_state := [(name, ⟨"running", some msg, 1, 0⟩)],
          power_budget := budget, power_used := cost,
          running_specs := [spec], runs_started := runs }
        spec (.raised msg) =
      { task_specs := [spec],
        task_state := [(name, ⟨"running", some msg, 2, 0⟩)],
        power_budget := budget, power_used := cost,
        running_specs := [spec], runs_started := runs ++ [name] } := by
    intro runs
    simp only [on_task_done, stateOf, alookup, aset, removeRunning,
      if_true, Option.getD_some]
    rw [if_pos (by simp)]
    rw [ensure_task_admitted]
    · simp [stateOf, alookup, aset, sub_self]
    · simp [stateOf, alookup, aset]
    · simpa [sub_self] using hnb
  have hlast : ∀ runs : List String,
      SchedState.on_task_done
        { task_specs := [spec],
          task_state := [(name, ⟨"running", some msg, 2, 0⟩)],
          power_budget := budget, power_used := cost,
          running_specs := [spec], runs_started := runs }
        spec (.raised msg) =
      { task_specs := [spec],
        task_state := [(name, ⟨"failed", some msg, 2, 0⟩)],
        power_budget := budget, power_used := 0, running_specs := [],
        runs_started := runs } := by
    intro runs
    simp only [on_task_done, stateOf, alookup, aset, removeRunning,
      if_true, Option.getD_some]
    rw [if_neg (by simp)]
    simp [sub_self]
  rw [settleFailing, h1]
  rw [show spec.max_restarts + 2 = 3 + 1 from rfl]
  rw [failRounds, if_pos (by simp [stateOf, alookup]), hcycle0 [name]]
  rw [show (3 : Nat) = 2 + 1 from rfl]
  rw [failRounds, if_pos (by simp [stateOf, alookup]),
    hcycle1 ([name] ++ [name])]
  rw [show (2 : Nat) = 1 + 1 from rfl]
  rw [failRounds, if_pos (by simp [stateOf, alookup]),
    hlast (([name] ++ [name]) ++ [name])]
  rw [show (1 : Nat) = 0 + 1 from rfl]
  rw [failRounds, if_neg (by simp [stateOf, alookup])]
  simp

end SettleLemmas

/-- C2 counterexample: for an always-raising task with `max_restarts = 2`
(budget 10, cost 1), after settling, the health-snapshot entry maps
`"restarts"` to the string `"2"` produced by `str(...)`, which is not
equal to the integer `2`; so the claim that the snapshot entry has
`restarts` equal to `2` fails under Python equality. -/
theorem C2_snapshot_restarts_not_int_counterexample :
    (let spec : TaskSpec := ⟨"w", 100, 1, true, 2⟩
     let sF := ((SchedState.init 10).schedule spec).settleFailing spec "boom"
     (alookup sF.health_snapshot "w").bind (fun d => alookup d "restarts")
        = some (.vs "2") ∧
     ¬ ((alookup sF.health_snapshot "w").bind (fun d => alookup d "restarts")
        = some (.vi 2))) := by
  intro spec sF
  have h := settleFailing_always_raises "w" "boom" 10 1 (by norm_num)
  show (alookup sF.health_snapshot "w").bind (fun d => alookup d "restarts")
      = some (.vs "2") ∧
    ¬ ((alookup sF.health_snapshot "w").bind (fun d => alookup d "restarts")
      = some (.vi 2))
  have hsF : sF =
      { task_specs := [spec],
        task_state := [("w", ⟨"failed", some "boom", 2, 0⟩)],
        power_budget := 10, power_used := 0, running_specs := [],
        runs_started := ["w", "w", "w"] } := h
  rw [hsF]
  simp [SchedState.health_snapshot, SchedState.snapEntry, alookup, Nat.repr]
  rfl

/-- C2 amended: for a task whose run action raises on every run, with
`restart = true`, `max_restarts = 2` and a sufficient power budget, after
all restart attempts settle the stored task state has status `"failed"`
and a restart count of `2` (surfaced by `health_snapshot` as the strings
`"failed"` and `"2"`), exactly three runs were started (the initial run
plus two restarts), and no further run of the task's action is ever
started. -/
theorem C2_restart_bound (name msg : String) (budget cost : ℚ)
    (hb : cost ≤ budget) :
    (let spec : TaskSpec := ⟨name, 100, cost, true, 2⟩
     let sF := ((SchedState.init budget).schedule spec).settleFailing spec msg
     sF.stateOf name = ⟨"failed", some msg, 2, 0⟩ ∧
     (alookup sF.health_snapshot name).bind (fun d => alookup d "status")
        = some (.vs "failed") ∧
     (alookup sF.health_snapshot name).bind (fun d => alookup d "restarts")
        = some (.vs "2") ∧
     sF.runs_started = [name, name, name] ∧
     (∀ k, SchedState.failRounds spec msg k sF = sF)) := by
  intro spec sF
  have hsF : sF =
      { task_specs := [spec],
        task_state := [(name, ⟨"failed", some msg, 2, 0⟩)],
        power_budget := budget, power_used := 0, running_specs := [],
        runs_started := [name, name, name] } :=
    settleFailing_always_raises name msg budget cost hb
  rw [hsF]
  refine ⟨by simp [SchedState.stateOf, alookup],
    by simp [SchedState.health_snapshot, SchedState.snapEntry, alookup],
    by simp [SchedState.health_snapshot, SchedState.snapEntry, alookup,
      Nat.repr]; rfl,
    rfl, ?_⟩
  intro k
  cases k with
  | zero => rfl
  | succ k =>
    rw [SchedState.failRounds, if_neg (by simp [SchedState.stateOf, alookup])]

/-- Witness for C2 at a concrete task. -/
theorem C2_restart_bound_witness :
    (let spec : TaskSpec := ⟨"w", 100, 1, true, 2⟩
     let sF := ((SchedState.init 10).schedule spec).settleFailing spec "boom"
     sF.stateOf "w" = ⟨"failed", some "boom", 2, 0⟩ ∧
     (alookup sF.health_snapshot "w").bind (fun d => alookup d "status")
        = some (.vs "failed") ∧
     (alookup sF.health_snapshot "w").bind (fun d => alookup d "restarts")
        = some (.vs "2") ∧
     sF.runs_started = ["w", "w", "w"] ∧
     (∀ k, SchedState.failRounds spec "boom" k sF = sF)) :=
  C2_restart_bound "w" "boom" 10 1 (by norm_num)

end ALI
